import Mathlib

/-!
Verification of the workflow-executor client (`src/executor.py`).

The script is embedded shallowly:

* Python `float` arithmetic is modelled by exact rationals together with an
  IEEE-754 binary64 rounding operation `rnd` (round to nearest, ties to even,
  53-bit significand, unbounded exponent range — faithful to binary64 on every
  value that can actually arise here, since no quantity ever overflows and
  list lengths keep quotients far above the subnormal threshold).
* The wall clock (`time.time`, `time.sleep`) is a rational-valued simulated
  clock threaded through an explicit `ExecState`.
* The network (`httpx`) is an oracle `Net` mapping each issued request to
  either a response text or an `HttpError`; `httpx.HTTPError` covers exactly
  transport errors and HTTP-status errors, mirrored by the two constructors.
* Logging is a list of level-tagged entries; message text is built by plain
  concatenation (printf-style float formatting such as `%.1f` is abbreviated
  to `toString`, which no property depends on).
-/

namespace WorkflowExecutor

/-! ## IEEE-754 binary64 model -/

/-- Round a rational to the nearest integer, ties to even (the IEEE-754
default rounding of a significand). -/
def rne (x : ℚ) : ℤ :=
  if x - ⌊x⌋ < 1/2 then ⌊x⌋
  else if 1/2 < x - ⌊x⌋ then ⌊x⌋ + 1
  else if Even ⌊x⌋ then ⌊x⌋ else ⌊x⌋ + 1

/-- Round a positive rational to the binary64 grid: the significand grid at
exponent `Int.log 2 q` has spacing `2 ^ (Int.log 2 q - 52)`; round to the
nearest grid point, ties to even.  (Only ever applied to positive values in
this development; binary64 overflow and subnormals cannot arise from the
quantities the executor computes.) -/
def rnd (q : ℚ) : ℚ :=
  (rne (q / 2 ^ (Int.log 2 q - 52)) : ℚ) * 2 ^ (Int.log 2 q - 52)

/-- Python `int()` applied to a float: truncation toward zero. -/
def pyInt (x : ℚ) : ℤ :=
  if 0 ≤ x then ⌊x⌋ else -⌊-x⌋

/-- Python true division `a / b` of two ints: the exact quotient correctly
rounded to binary64. -/
def fdiv (a b : ℕ) : ℚ :=
  rnd ((a : ℚ) / (b : ℚ))

/-- Python float multiplication: the exact product correctly rounded to
binary64. -/
def fmul (x y : ℚ) : ℚ :=
  rnd (x * y)

/-- The progress percentage computed at line 63 of `executor.py`:
`int((index / total_steps) * 100) if total_steps else 100`. -/
def progressValue (index total_steps : ℕ) : ℤ :=
  if total_steps = 0 then 100 else pyInt (fmul (fdiv index total_steps) 100)

/-- The progress percentage as the specification words it:
`floor(index / total * 100)`, or 100 if total is zero (real-number
semantics, no rounding). -/
def specProgress (index total_steps : ℕ) : ℤ :=
  if total_steps = 0 then 100 else ⌊((index : ℚ) / (total_steps : ℚ)) * 100⌋

/-! ## Data model -/

/-- A JSON value, the payload currency of the untyped dicts of the script. -/
inductive Json where
  | str (s : String)
  | num (q : ℚ)
  | bool (b : Bool)
  | arr (elems : List Json)
  | obj (fields : List (String × Json))
  | null

/-- A step dict: both keys are read with `step.get(…, default)`, so both are
optional. -/
structure Step where
  description : Option String
  duration : Option ℚ
deriving DecidableEq

/-- The `"result"` sub-dict of a task; both keys optional (`get` with
defaults). -/
structure TaskResult where
  status : Option String
  output : Option Json

/-- A task dict: every key is read with `task.get`, so every key is
optional. -/
structure Task where
  id : Option String
  steps : Option (List Step)
  result : Option TaskResult

/-- The timeout configured on the `httpx.Client` in `main`
(`httpx.Timeout(10.0, read=30.0)`): 10-second connect, 30-second read. -/
structure Timeout where
  connect : ℚ
  read : ℚ
deriving DecidableEq

/-- The HTTP client: the only state the script uses is its timeout. -/
structure Client where
  timeout : Timeout

/-- The client constructed in `main`. -/
def mainClient : Client :=
  { timeout := { connect := 10, read := 30 } }

/-- The progress payload dict built per step (lines 58–65). -/
structure ProgressPayload where
  task_id : String
  step : ℕ
  total_steps : ℕ
  description : String
  progress : ℤ
  timestamp : ℚ

/-- The result payload dict built after the loop (lines 70–77). -/
structure ResultPayload where
  task_id : String
  status : String
  output : Json
  started_at : ℚ
  finished_at : ℚ
  duration : ℚ

/-- A payload handed to `post_json` (typed view of `Dict[str, Any]`). -/
inductive Payload where
  | progress (p : ProgressPayload)
  | result (r : ResultPayload)

/-- JSON serialization of a payload, as `client.post(url, json=payload)`
performs it. -/
def payloadToJson : Payload → Json
  | .progress p => .obj
      [("task_id", .str p.task_id), ("step", .num p.step),
       ("total_steps", .num p.total_steps), ("description", .str p.description),
       ("progress", .num p.progress), ("timestamp", .num p.timestamp)]
  | .result r => .obj
      [("task_id", .str r.task_id), ("status", .str r.status),
       ("output", r.output), ("started_at", .num r.started_at),
       ("finished_at", .num r.finished_at), ("duration", .num r.duration)]

/-- An HTTP POST as issued on the wire: target URL, payload, and the
timeout the issuing client was configured with. -/
structure Request where
  url : String
  payload : Payload
  timeout : Timeout

/-- The serialized body of a request. -/
def Request.body (r : Request) : Json :=
  payloadToJson r.payload

/-- The two subclasses of `httpx.HTTPError`: transport errors and the
status errors produced by `response.raise_for_status()`. -/
inductive HttpError where
  | transport (msg : String)
  | statusError (code : ℕ)

/-- Rendering of an error for the log line. -/
def errText : HttpError → String
  | .transport msg => msg
  | .statusError code => "status " ++ toString code

/-- The network oracle: what the backend does with each request — either a
response body text (2xx) or an `httpx.HTTPError`. -/
def Net : Type :=
  Request → Except HttpError String

inductive LogLevel where
  | debug
  | info
  | error
deriving DecidableEq

structure LogEntry where
  level : LogLevel
  msg : String

/-- The observable state threaded through the run: the simulated wall
clock, the log, and the requests issued so far (in order). -/
structure ExecState where
  clock : ℚ
  logs : List LogEntry
  requests : List Request

/-- The state a fresh process run starts from. -/
def initState : ExecState :=
  { clock := 0, logs := [], requests := [] }

/-- Append one log line. -/
def logMsg (level : LogLevel) (msg : String) (st : ExecState) : ExecState :=
  { st with logs := st.logs ++ [⟨level, msg⟩] }

/-! ## The operations (translated from `src/executor.py`) -/

def STATUS_ENDPOINT : String := "/executor/status"

def RESULT_ENDPOINT : String := "/executor/result"

/-- Lines 28–36.  `post_json` issues exactly one POST of the serialized
payload with the timeout of the client, then logs debug on success and error on
`httpx.HTTPError`; the `try`/`except` swallows the error, so the function
always returns normally (its Lean type is total). -/
def post_json (client : Client) (url : String) (payload : Payload)
    (net : Net) (st : ExecState) : ExecState :=
  let req : Request := { url := url, payload := payload, timeout := client.timeout }
  let st := { st with requests := st.requests ++ [req] }
  match net req with
  | .ok text =>
      { st with logs := st.logs ++ [⟨.debug, "POST " ++ url ++ " succeeded: " ++ text⟩] }
  | .error exc =>
      { st with logs := st.logs ++ [⟨.error, "POST " ++ url ++ " failed: " ++ errText exc⟩] }

/-- The `for index, step in enumerate(steps, start=1)` loop body of
`execute_task` (lines 51–67): read the optional keys of the step, log, sleep,
build the progress payload, post it. -/
def runSteps (task_id : String) (total_steps : ℕ) (backend_url : String)
    (client : Client) (net : Net) : ℕ → List Step → ExecState → ExecState
  | _, [], st => st
  | index, step :: rest, st =>
      let description := step.description.getD ("Step " ++ toString index)
      let duration := step.duration.getD 1
      let st := logMsg .info
        ("Executing step " ++ toString index ++ "/" ++ toString total_steps ++ ": "
          ++ description ++ " (" ++ toString duration ++ "s)") st
      let st := { st with clock := st.clock + duration }
      let progress_payload : ProgressPayload :=
        { task_id := task_id, step := index, total_steps := total_steps,
          description := description,
          progress := progressValue index total_steps,
          timestamp := st.clock }
      let st := post_json client (backend_url ++ STATUS_ENDPOINT) (.progress progress_payload) net st
      runSteps task_id total_steps backend_url client net (index + 1) rest st

/-- Lines 38–80.  Python passes the task dict by reference and the body
performs only `.get` reads, never a write; the second component of the
returned pair is the task object as it stands when the call returns. -/
def execute_task (task : Task) (backend_url : String) (client : Client)
    (net : Net) (st : ExecState) : ExecState × Task :=
  let task_id := task.id.getD "unknown"
  let steps_list := task.steps.getD []
  let total_steps := steps_list.length
  let st := logMsg .info
    ("Starting task " ++ task_id ++ " with " ++ toString total_steps ++ " steps") st
  let start_time := st.clock
  let st := runSteps task_id total_steps backend_url client net 1 steps_list st
  let end_time := st.clock
  let result_payload : ResultPayload :=
    { task_id := task_id,
      status := ((task.result.getD ⟨none, none⟩).status).getD "success",
      output := ((task.result.getD ⟨none, none⟩).output).getD (.obj []),
      started_at := start_time,
      finished_at := end_time,
      duration := end_time - start_time }
  let st := post_json client (backend_url ++ RESULT_ENDPOINT) (.result result_payload) net st
  let st := logMsg .info ("Task " ++ task_id ++ " completed") st
  (st, task)

/-- Lines 83–99: the hardcoded demo task. -/
def build_demo_task : Task :=
  { id := some "demo-task-001",
    steps := some
      [ { description := some "Initialize environment", duration := some 1 },
        { description := some "Process dataset", duration := some 2 },
        { description := some "Finalize output", duration := some (3/2) } ],
    result := some
      { status := some "success",
        output := some (.obj
          [("message", .str "Task completed successfully"),
           ("artifacts", .arr [.str "log.txt", .str "results.json"])]) } }

/-! ## Config loading and `main` -/

/-- Failures of `config_path.open` / `json.load`. -/
inductive ConfigError where
  | ioError (msg : String)
  | parseError (msg : String)

/-- A parsed JSON object: what `json.load` yields for the config file. -/
def Config : Type :=
  List (String × Json)

/-- Lines 22–25.  The file read and JSON parse are abstracted as the
already-attempted parse result; `load_config` performs no validation of its
own — in particular it never looks for the `"backend_url"` key — so it
returns exactly what parsing produced. -/
def load_config (contents : Except ConfigError Config) : Except ConfigError Config :=
  contents

/-- Exceptions `main` can raise. -/
inductive PyError where
  | keyError (key : String)
  | configError (e : ConfigError)
  | attributeError (msg : String)

/-- Python `config["backend_url"]`: a missing key raises `KeyError`. -/
def dictGet (cfg : Config) (key : String) : Except PyError Json :=
  match cfg.lookup key with
  | some v => .ok v
  | none => .error (.keyError key)

/-- Python `s.rstrip("/")`: remove every trailing `'/'` character. -/
def rstripSlash (s : String) : String :=
  ⟨(s.data.reverse.dropWhile (fun c => c = '/')).reverse⟩

/-- Whether a string ends in `'/'`. -/
def hasTrailingSlash (s : String) : Bool :=
  decide (s.data.getLast? = some '/')

/-- Lines 110–121.  `main` configures logging, loads the config, reads
`backend_url` (a `KeyError` propagates from this exact subscript, before
any client exists or any request is made), strips trailing slashes, builds
the demo task, opens the client with the 10 s/30 s timeout and runs the
task.  The returned pair is the exception outcome and the final observable
state. -/
def mainRun (configFile : Except ConfigError Config) (net : Net) :
    Except PyError Unit × ExecState :=
  let st := initState
  match load_config configFile with
  | .error e => (.error (.configError e), st)
  | .ok config =>
      match dictGet config "backend_url" with
      | .error e => (.error e, st)
      | .ok (.str rawUrl) =>
          let backend_url := rstripSlash rawUrl
          let st := logMsg .info ("Using backend URL: " ++ backend_url) st
          let task := build_demo_task
          let client := mainClient
          let st := (execute_task task backend_url client net st).1
          (.ok (), st)
      | .ok _ => (.error (.attributeError "rstrip"), st)

/-! ## Observation helpers -/

/-- The progress percentage a request carries, when it is a status post. -/
def progressOf (r : Request) : Option ℤ :=
  match r.payload with
  | .progress p => some p.progress
  | .result _ => none

/-- The result payload a request carries, when it is a result post. -/
def resultOf (r : Request) : Option ResultPayload :=
  match r.payload with
  | .progress _ => none
  | .result rp => some rp

/-- The progress percentages of the status payloads posted so far, in
posting order. -/
def sentProgresses (st : ExecState) : List ℤ :=
  st.requests.filterMap progressOf

/-- The result payloads posted so far, in posting order. -/
def sentResults (st : ExecState) : List ResultPayload :=
  st.requests.filterMap resultOf

/-- The log entry `post_json` writes for a given network outcome: debug text
on success, error text on an `httpx.HTTPError`. -/
def postLogEntry (url : String) : Except HttpError String → LogEntry
  | .ok text => ⟨.debug, "POST " ++ url ++ " succeeded: " ++ text⟩
  | .error exc => ⟨.error, "POST " ++ url ++ " failed: " ++ errText exc⟩

/-- The status requests the step loop issues: one per step in order, with
1-based index, running clock, and the per-step defaults applied. -/
def stepTrace (task_id : String) (total_steps : ℕ) (backend_url : String)
    (tmo : Timeout) : ℕ → ℚ → List Step → List Request
  | _, _, [] => []
  | index, clk, step :: rest =>
      { url := backend_url ++ STATUS_ENDPOINT,
        payload := .progress
          { task_id := task_id, step := index, total_steps := total_steps,
            description := step.description.getD ("Step " ++ toString index),
            progress := progressValue index total_steps,
            timestamp := clk + step.duration.getD 1 },
        timeout := tmo }
        :: stepTrace task_id total_steps backend_url tmo (index + 1)
            (clk + step.duration.getD 1) rest

/-- Total simulated sleeping time of a step list (with the 1-second default
duration applied). -/
def durSum (steps : List Step) : ℚ :=
  (steps.map (fun s => s.duration.getD 1)).sum

/-- The one result request `execute_task` issues after the loop. -/
def resultReq (task : Task) (backend_url : String) (tmo : Timeout)
    (start : ℚ) : Request :=
  { url := backend_url ++ RESULT_ENDPOINT,
    payload := .result
      { task_id := task.id.getD "unknown",
        status := ((task.result.getD ⟨none, none⟩).status).getD "success",
        output := ((task.result.getD ⟨none, none⟩).output).getD (.obj []),
        started_at := start,
        finished_at := start + durSum (task.steps.getD []),
        duration := durSum (task.steps.getD []) },
    timeout := tmo }

/-! ## Properties of the rounding model -/

theorem floor_le_rne (x : ℚ) : ⌊x⌋ ≤ rne x := by
  unfold rne; split_ifs <;> omega

theorem rne_le_floor_add_one (x : ℚ) : rne x ≤ ⌊x⌋ + 1 := by
  unfold rne; split_ifs <;> omega

theorem abs_rne_sub_le (x : ℚ) : |(rne x : ℚ) - x| ≤ 1/2 := by
  have h0 : (⌊x⌋ : ℚ) ≤ x := Int.floor_le x
  have h1 : x < ⌊x⌋ + 1 := Int.lt_floor_add_one x
  unfold rne
  split_ifs <;> rw [abs_le] <;> push_cast <;> constructor <;> linarith

theorem rne_mono {x y : ℚ} (h : x ≤ y) : rne x ≤ rne y := by
  rcases lt_or_le ⌊x⌋ ⌊y⌋ with hf | hf
  · calc rne x ≤ ⌊x⌋ + 1 := rne_le_floor_add_one x
      _ ≤ ⌊y⌋ := by omega
      _ ≤ rne y := floor_le_rne y
  · have hfe : ⌊x⌋ = ⌊y⌋ := le_antisymm (Int.floor_le_floor h) hf
    unfold rne
    rw [hfe]
    split_ifs <;> first | omega | linarith

theorem rne_intCast (m : ℤ) : rne (m : ℚ) = m := by
  unfold rne
  rw [Int.floor_intCast]
  rw [if_pos (by norm_num)]

theorem rne_eq_down (x : ℚ) (f : ℤ) (h1 : (f : ℚ) ≤ x) (h2 : x < f + 1/2) :
    rne x = f := by
  have hf : ⌊x⌋ = f := Int.floor_eq_iff.mpr ⟨h1, by linarith⟩
  unfold rne
  rw [hf, if_pos (by linarith)]

theorem int_log_eq {q : ℚ} (e : ℤ) (hq : 0 < q) (h1 : (2 : ℚ) ^ e ≤ q)
    (h2 : q < (2 : ℚ) ^ (e + 1)) : Int.log 2 q = e := by
  have h3 : e ≤ Int.log 2 q :=
    (Int.zpow_le_iff_le_log one_lt_two hq).mp (by exact_mod_cast h1)
  have h4 : Int.log 2 q < e + 1 :=
    (Int.lt_zpow_iff_log_lt one_lt_two hq).mp (by exact_mod_cast h2)
  omega

theorem rnd_eval {q : ℚ} (e m : ℤ) (hq : 0 < q) (h1 : (2 : ℚ) ^ e ≤ q)
    (h2 : q < (2 : ℚ) ^ (e + 1)) (h3 : rne (q / 2 ^ (e - 52)) = m) :
    rnd q = (m : ℚ) * 2 ^ (e - 52) := by
  unfold rnd
  rw [int_log_eq e hq h1 h2, h3]

theorem two_zpow_pos (n : ℤ) : (0 : ℚ) < 2 ^ n :=
  zpow_pos (by norm_num) n

theorem two_zpow_le_self {q : ℚ} (hq : 0 < q) : (2 : ℚ) ^ Int.log 2 q ≤ q := by
  have h := Int.zpow_log_le_self (b := 2) (R := ℚ) one_lt_two hq
  exact_mod_cast h

theorem self_lt_two_zpow (q : ℚ) : q < (2 : ℚ) ^ (Int.log 2 q + 1) := by
  have h := Int.lt_zpow_succ_log_self (b := 2) (R := ℚ) one_lt_two q
  exact_mod_cast h

theorem abs_rnd_sub_le {q : ℚ} (hq : 0 < q) :
    |rnd q - q| ≤ q * (2 : ℚ) ^ (-53 : ℤ) := by
  have hg : (0 : ℚ) < (2 : ℚ) ^ (Int.log 2 q - 52) := two_zpow_pos _
  have h3 : rnd q - q
      = ((rne (q / 2 ^ (Int.log 2 q - 52)) : ℚ) - q / 2 ^ (Int.log 2 q - 52))
          * 2 ^ (Int.log 2 q - 52) := by
    unfold rnd
    rw [sub_mul, div_mul_cancel₀ _ (ne_of_gt hg)]
  have key : |rnd q - q| ≤ 1 / 2 * (2 : ℚ) ^ (Int.log 2 q - 52) := by
    rw [h3, abs_mul, abs_of_pos hg]
    exact mul_le_mul_of_nonneg_right (abs_rne_sub_le _) (le_of_lt hg)
  refine key.trans ?_
  have hsplit : (1 : ℚ) / 2 * (2 : ℚ) ^ (Int.log 2 q - 52)
      = (2 : ℚ) ^ Int.log 2 q * (2 : ℚ) ^ (-53 : ℤ) := by
    rw [← zpow_add₀ (two_ne_zero : (2 : ℚ) ≠ 0)]
    rw [(by ring : Int.log 2 q + -53 = (Int.log 2 q - 52) + -1)]
    rw [zpow_add₀ (two_ne_zero : (2 : ℚ) ≠ 0)]
    norm_num
    ring
  rw [hsplit]
  exact mul_le_mul_of_nonneg_right (two_zpow_le_self hq) (le_of_lt (two_zpow_pos _))

theorem rnd_le_upper {q : ℚ} (hq : 0 < q) : rnd q ≤ q * (1 + (2 : ℚ) ^ (-53 : ℤ)) := by
  have h := (abs_le.mp (abs_rnd_sub_le hq)).2
  nlinarith [two_zpow_pos (-53 : ℤ)]

theorem rnd_ge_lower {q : ℚ} (hq : 0 < q) : q * (1 - (2 : ℚ) ^ (-53 : ℤ)) ≤ rnd q := by
  have h := (abs_le.mp (abs_rnd_sub_le hq)).1
  nlinarith [two_zpow_pos (-53 : ℤ)]

theorem rnd_pos {q : ℚ} (hq : 0 < q) : 0 < rnd q := by
  have h := rnd_ge_lower hq
  have heps : (2 : ℚ) ^ (-53 : ℤ) < 1 := by
    rw [(by norm_num : ((2 : ℚ) ^ (-53 : ℤ)) = ((2 : ℚ) ^ (53 : ℕ))⁻¹)]
    rw [inv_lt_one_iff₀]
    right
    norm_num
  nlinarith

theorem rnd_mono {x y : ℚ} (hx : 0 < x) (hxy : x ≤ y) : rnd x ≤ rnd y := by
  have hy : 0 < y := lt_of_lt_of_le hx hxy
  have hlog : Int.log 2 x ≤ Int.log 2 y := Int.log_mono_right hx hxy
  rcases eq_or_lt_of_le hlog with heq | hlt
  · have hg : (0 : ℚ) < (2 : ℚ) ^ (Int.log 2 x - 52) := two_zpow_pos _
    unfold rnd
    rw [← heq]
    have hdiv : x / 2 ^ (Int.log 2 x - 52) ≤ y / 2 ^ (Int.log 2 x - 52) := by
      gcongr
    have := rne_mono hdiv
    exact mul_le_mul_of_nonneg_right (by exact_mod_cast this) (le_of_lt hg)
  · -- different binades: rnd x ≤ 2 ^ (log x + 1) ≤ 2 ^ log y ≤ rnd y
    have hgx : (0 : ℚ) < (2 : ℚ) ^ (Int.log 2 x - 52) := two_zpow_pos _
    have hgy : (0 : ℚ) < (2 : ℚ) ^ (Int.log 2 y - 52) := two_zpow_pos _
    have hup : rnd x ≤ (2 : ℚ) ^ (Int.log 2 x + 1) := by
      have hxlt : x / 2 ^ (Int.log 2 x - 52) < (2 : ℚ) ^ (53 : ℤ) := by
        rw [div_lt_iff₀ hgx, ← zpow_add₀ (two_ne_zero : (2 : ℚ) ≠ 0)]
        rw [(by ring : (53 : ℤ) + (Int.log 2 x - 52) = Int.log 2 x + 1)]
        exact self_lt_two_zpow x
      have hfl : rne (x / 2 ^ (Int.log 2 x - 52)) ≤ 2 ^ (53 : ℕ) := by
        have h1 : ⌊x / 2 ^ (Int.log 2 x - 52)⌋ < 2 ^ (53 : ℕ) := by
          rw [Int.floor_lt]
          exact hxlt.trans_eq (by norm_num)
        have h2 := rne_le_floor_add_one (x / 2 ^ (Int.log 2 x - 52))
        omega
      unfold rnd
      calc (rne (x / 2 ^ (Int.log 2 x - 52)) : ℚ) * 2 ^ (Int.log 2 x - 52)
          ≤ (2 : ℚ) ^ (53 : ℤ) * 2 ^ (Int.log 2 x - 52) := by
            refine mul_le_mul_of_nonneg_right ?_ (le_of_lt hgx)
            exact_mod_cast hfl
        _ = (2 : ℚ) ^ (Int.log 2 x + 1) := by
            rw [← zpow_add₀ (two_ne_zero : (2 : ℚ) ≠ 0)]
            ring_nf
    have hdown : (2 : ℚ) ^ Int.log 2 y ≤ rnd y := by
      have hyge : (2 : ℚ) ^ (52 : ℤ) ≤ y / 2 ^ (Int.log 2 y - 52) := by
        rw [le_div_iff₀ hgy, ← zpow_add₀ (two_ne_zero : (2 : ℚ) ≠ 0)]
        rw [(by ring : (52 : ℤ) + (Int.log 2 y - 52) = Int.log 2 y)]
        exact two_zpow_le_self hy
      have hfl : (2 : ℤ) ^ (52 : ℕ) ≤ rne (y / 2 ^ (Int.log 2 y - 52)) := by
        have h1 : (2 : ℤ) ^ (52 : ℕ) ≤ ⌊y / 2 ^ (Int.log 2 y - 52)⌋ := by
          rw [Int.le_floor]
          exact le_trans (by norm_num) hyge
        have h2 := floor_le_rne (y / 2 ^ (Int.log 2 y - 52))
        omega
      unfold rnd
      calc (2 : ℚ) ^ Int.log 2 y
          = (2 : ℚ) ^ (52 : ℤ) * 2 ^ (Int.log 2 y - 52) := by
            rw [← zpow_add₀ (two_ne_zero : (2 : ℚ) ≠ 0)]
            ring_nf
        _ ≤ (rne (y / 2 ^ (Int.log 2 y - 52)) : ℚ) * 2 ^ (Int.log 2 y - 52) := by
            refine mul_le_mul_of_nonneg_right ?_ (le_of_lt hgy)
            exact_mod_cast hfl
    refine hup.trans (le_trans ?_ hdown)
    exact zpow_le_zpow_right₀ (by norm_num) (by omega)

theorem rnd_exact {q : ℚ} (e m : ℤ) (hq : 0 < q) (h1 : (2 : ℚ) ^ e ≤ q)
    (h2 : q < (2 : ℚ) ^ (e + 1)) (h3 : q = (m : ℚ) * 2 ^ (e - 52)) : rnd q = q := by
  have hg : (0 : ℚ) < (2 : ℚ) ^ (e - 52) := two_zpow_pos _
  have hx : q / 2 ^ (e - 52) = (m : ℚ) := by
    rw [h3]
    field_simp
  have h4 := rnd_eval e m hq h1 h2 (by rw [hx]; exact rne_intCast m)
  rw [h4, ← h3]

theorem rnd_one : rnd 1 = 1 := by
  have h := rnd_exact (q := 1) 0 (2 ^ 52) (by norm_num) (by norm_num) (by norm_num)
    (by push_cast; norm_num)
  exact h

theorem rnd_hundred : rnd 100 = 100 := by
  have h := rnd_exact (q := 100) 6 (100 * 2 ^ 46) (by norm_num) (by norm_num)
    (by norm_num) (by push_cast; norm_num)
  exact h

theorem floor_eval (x : ℚ) (f : ℤ) (h1 : (f : ℚ) ≤ x) (h2 : x < f + 1) : ⌊x⌋ = f :=
  Int.floor_eq_iff.mpr ⟨h1, h2⟩

theorem pyInt_mono {x y : ℚ} (hx : 0 ≤ x) (hxy : x ≤ y) : pyInt x ≤ pyInt y := by
  unfold pyInt
  rw [if_pos hx, if_pos (le_trans hx hxy)]
  exact Int.floor_le_floor hxy

/-! ## Properties of the progress formula -/

theorem progress_mono {i j n : ℕ} (hi : 1 ≤ i) (hij : i ≤ j) (hn : n ≠ 0) :
    progressValue i n ≤ progressValue j n := by
  have hnq : (0 : ℚ) < (n : ℚ) := by exact_mod_cast Nat.pos_of_ne_zero hn
  have hiq : (0 : ℚ) < (i : ℚ) := by exact_mod_cast hi
  simp only [progressValue, if_neg hn]
  have hq1 : (0 : ℚ) < (i : ℚ) / (n : ℚ) := div_pos hiq hnq
  have hdle : (i : ℚ) / (n : ℚ) ≤ (j : ℚ) / (n : ℚ) := by
    gcongr
  have h1 : fdiv i n ≤ fdiv j n := rnd_mono hq1 hdle
  have h2 : 0 < fdiv i n := rnd_pos hq1
  have hq2 : (0 : ℚ) < fdiv i n * 100 := by positivity
  have h3 : fmul (fdiv i n) 100 ≤ fmul (fdiv j n) 100 := by
    unfold fmul
    exact rnd_mono hq2 (by nlinarith)
  have h4 : 0 < fmul (fdiv i n) 100 := rnd_pos hq2
  exact pyInt_mono (le_of_lt h4) h3

theorem progress_last {n : ℕ} (hn : n ≠ 0) : progressValue n n = 100 := by
  unfold progressValue
  rw [if_neg hn]
  have h1 : fdiv n n = 1 := by
    unfold fdiv
    rw [div_self (by exact_mod_cast hn : (n : ℚ) ≠ 0)]
    exact rnd_one
  rw [h1]
  have h2 : fmul 1 100 = 100 := by
    unfold fmul
    rw [one_mul]
    exact rnd_hundred
  rw [h2]
  unfold pyInt
  rw [if_pos (by norm_num)]
  rw [(by norm_num : (100 : ℚ) = ((100 : ℤ) : ℚ)), Int.floor_intCast]

/-- Master evaluation lemma: with both binades, both rounded significands and
the final floor supplied explicitly, `progressValue i n` evaluates by plain
rational arithmetic. -/
theorem progress_eval (i n : ℕ) (e1 m1 e2 m2 f : ℤ)
    (hn : n ≠ 0) (hi : 0 < i)
    (ha1 : (2 : ℚ) ^ e1 ≤ (i : ℚ) / (n : ℚ)) (hb1 : (i : ℚ) / (n : ℚ) < 2 ^ (e1 + 1))
    (hc1 : rne ((i : ℚ) / (n : ℚ) / 2 ^ (e1 - 52)) = m1)
    (ha2 : (2 : ℚ) ^ e2 ≤ (m1 : ℚ) * 2 ^ (e1 - 52) * 100)
    (hb2 : (m1 : ℚ) * 2 ^ (e1 - 52) * 100 < 2 ^ (e2 + 1))
    (hc2 : rne ((m1 : ℚ) * 2 ^ (e1 - 52) * 100 / 2 ^ (e2 - 52)) = m2)
    (hm2 : 0 ≤ (m2 : ℚ) * 2 ^ (e2 - 52))
    (hf1 : (f : ℚ) ≤ (m2 : ℚ) * 2 ^ (e2 - 52)) (hf2 : (m2 : ℚ) * 2 ^ (e2 - 52) < f + 1) :
    progressValue i n = f := by
  unfold progressValue
  rw [if_neg hn]
  have hq1 : (0 : ℚ) < (i : ℚ) / (n : ℚ) := by
    apply div_pos
    · exact_mod_cast hi
    · exact_mod_cast Nat.pos_of_ne_zero hn
  have hd : fdiv i n = (m1 : ℚ) * 2 ^ (e1 - 52) := rnd_eval e1 m1 hq1 ha1 hb1 hc1
  have hq2 : (0 : ℚ) < (m1 : ℚ) * 2 ^ (e1 - 52) * 100 :=
    lt_of_lt_of_le (two_zpow_pos e2) ha2
  have hm : fmul (fdiv i n) 100 = (m2 : ℚ) * 2 ^ (e2 - 52) := by
    unfold fmul
    rw [hd]
    exact rnd_eval e2 m2 hq2 ha2 hb2 hc2
  rw [hm]
  unfold pyInt
  rw [if_pos hm2]
  exact floor_eval _ f hf1 hf2

/-- Binary64 evaluation: `int((1 / 3) * 100)` is 33 (the double nearest 1/3 is
6004799503160661 · 2⁻⁵⁴ and the product rounds to 4691249611844266 · 2⁻⁴⁷,
slightly below 100/3). -/
theorem progress_one_of_three : progressValue 1 3 = 33 := by
  refine progress_eval 1 3 (-2) 6004799503160661 5 4691249611844266 33
    (by norm_num) (by norm_num)
    (by push_cast; norm_num) (by push_cast; norm_num)
    (rne_eq_down _ _ (by push_cast; norm_num) (by push_cast; norm_num))
    (by norm_num) (by norm_num)
    (rne_eq_down _ _ (by norm_num) (by norm_num))
    (by norm_num) (by norm_num) (by norm_num)

/-- Binary64 evaluation: `int((2 / 3) * 100)` is 66. -/
theorem progress_two_of_three : progressValue 2 3 = 66 := by
  refine progress_eval 2 3 (-1) 6004799503160661 6 4691249611844266 66
    (by norm_num) (by norm_num)
    (by push_cast; norm_num) (by push_cast; norm_num)
    (rne_eq_down _ _ (by push_cast; norm_num) (by push_cast; norm_num))
    (by norm_num) (by norm_num)
    (rne_eq_down _ _ (by norm_num) (by norm_num))
    (by norm_num) (by norm_num) (by norm_num)

/-- Binary64 evaluation: `int((29 / 100) * 100)` is 28, not 29 — the double
nearest 29/100 is 5224175567749775 · 2⁻⁵⁴, and multiplying it by 100 rounds
to 8162774324609023 · 2⁻⁴⁸ = 29 − 2⁻⁴⁸, whose truncation is 28. -/
theorem progress_twentynine_of_hundred : progressValue 29 100 = 28 := by
  refine progress_eval 29 100 (-2) 5224175567749775 4 8162774324609023 28
    (by norm_num) (by norm_num)
    (by push_cast; norm_num) (by push_cast; norm_num)
    (rne_eq_down _ _ (by push_cast; norm_num) (by push_cast; norm_num))
    (by norm_num) (by norm_num)
    (rne_eq_down _ _ (by norm_num) (by norm_num))
    (by norm_num) (by norm_num) (by norm_num)

/-- The specification formula at the same point: `floor(29/100 * 100) = 29`. -/
theorem specProgress_twentynine_of_hundred : specProgress 29 100 = 29 := by
  unfold specProgress
  rw [if_neg (by norm_num)]
  refine floor_eval _ 29 ?_ ?_ <;> push_cast <;> norm_num

/-- The double-precision progress value never strays more than one unit from
the real-number formula `floor(index/total * 100)`: two correctly rounded
operations on a value bounded by 100 perturb it by less than 3 · 100 · 2⁻⁵³. -/
theorem progress_near_spec {i n : ℕ} (hi : 1 ≤ i) (hin : i ≤ n) :
    specProgress i n - 1 ≤ progressValue i n ∧ progressValue i n ≤ specProgress i n + 1 := by
  have hn : n ≠ 0 := by omega
  have hnq : (0 : ℚ) < (n : ℚ) := by exact_mod_cast Nat.pos_of_ne_zero hn
  have ha0 : (0 : ℚ) < (i : ℚ) / (n : ℚ) := div_pos (by exact_mod_cast hi) hnq
  have ha1 : (i : ℚ) / (n : ℚ) ≤ 1 := by
    rw [div_le_one hnq]
    exact_mod_cast hin
  set a : ℚ := (i : ℚ) / (n : ℚ) with ha
  set ε : ℚ := (2 : ℚ) ^ (-53 : ℤ) with hε
  have hεv : ε = 1 / 9007199254740992 := by
    rw [hε]
    norm_num
  have hεpos : (0 : ℚ) < ε := by rw [hεv]; norm_num
  have hεlt : ε < 1 / 1000 := by rw [hεv]; norm_num
  have hd0 : 0 < fdiv i n := rnd_pos ha0
  have hdu : fdiv i n ≤ a * (1 + ε) := rnd_le_upper ha0
  have hdl : a * (1 - ε) ≤ fdiv i n := rnd_ge_lower ha0
  have hm0 : (0 : ℚ) < fdiv i n * 100 := by positivity
  have hmu : fmul (fdiv i n) 100 ≤ fdiv i n * 100 * (1 + ε) := rnd_le_upper hm0
  have hml : fdiv i n * 100 * (1 - ε) ≤ fmul (fdiv i n) 100 := rnd_ge_lower hm0
  have hε1 : (0 : ℚ) ≤ 1 + ε := by rw [hεv]; norm_num
  have hε2 : (0 : ℚ) ≤ 1 - ε := by rw [hεv]; norm_num
  have hub : fmul (fdiv i n) 100 < a * 100 + 1 := by
    have h1 : fdiv i n * 100 * (1 + ε) ≤ a * (1 + ε) * 100 * (1 + ε) :=
      mul_le_mul_of_nonneg_right (by linarith) hε1
    have heq : a * (1 + ε) * 100 * (1 + ε) = 100 * a + 100 * (a * (2 * ε + ε ^ 2)) := by
      ring
    have hqpos : (0 : ℚ) ≤ 2 * ε + ε ^ 2 := by positivity
    have h3 : a * (2 * ε + ε ^ 2) ≤ 2 * ε + ε ^ 2 := mul_le_of_le_one_left hqpos ha1
    have h4 : 100 * (2 * ε + ε ^ 2) < 1 := by rw [hεv]; norm_num
    linarith
  have hlb : a * 100 - 1 < fmul (fdiv i n) 100 := by
    have h1 : a * (1 - ε) * 100 * (1 - ε) ≤ fdiv i n * 100 * (1 - ε) :=
      mul_le_mul_of_nonneg_right (by linarith) hε2
    have heq : a * (1 - ε) * 100 * (1 - ε) = 100 * a - 100 * (a * (2 * ε - ε ^ 2)) := by
      ring
    have hqpos : (0 : ℚ) ≤ 2 * ε - ε ^ 2 := by nlinarith
    have h3 : a * (2 * ε - ε ^ 2) ≤ 2 * ε - ε ^ 2 := mul_le_of_le_one_left hqpos ha1
    have h4 : 100 * (2 * ε - ε ^ 2) < 1 := by rw [hεv]; norm_num
    linarith
  have hm0' : (0 : ℚ) < fmul (fdiv i n) 100 := rnd_pos hm0
  have hsp : specProgress i n = ⌊a * 100⌋ := by
    unfold specProgress
    rw [if_neg hn]
  have hpv : progressValue i n = ⌊fmul (fdiv i n) 100⌋ := by
    unfold progressValue pyInt
    rw [if_neg hn, if_pos (le_of_lt hm0')]
  rw [hsp, hpv]
  constructor
  · have h2 : ((⌊a * 100⌋ - 1 : ℤ) : ℚ) ≤ fmul (fdiv i n) 100 := by
      push_cast
      have := Int.floor_le (a * 100)
      linarith
    have := Int.le_floor.mpr h2
    omega
  · have h2 : fmul (fdiv i n) 100 < ((⌊a * 100⌋ + 2 : ℤ) : ℚ) := by
      push_cast
      have := Int.lt_floor_add_one (a * 100)
      linarith
    have := Int.floor_lt.mpr h2
    omega

/-! ## Trace characterization of the executor -/

theorem post_json_requests (c : Client) (u : String) (p : Payload) (net : Net)
    (st : ExecState) :
    (post_json c u p net st).requests = st.requests ++ [⟨u, p, c.timeout⟩] := by
  cases hnet : net ⟨u, p, c.timeout⟩ <;> simp [post_json, hnet]

theorem post_json_clock (c : Client) (u : String) (p : Payload) (net : Net)
    (st : ExecState) : (post_json c u p net st).clock = st.clock := by
  cases hnet : net ⟨u, p, c.timeout⟩ <;> simp [post_json, hnet]

theorem post_json_logs (c : Client) (u : String) (p : Payload) (net : Net)
    (st : ExecState) :
    (post_json c u p net st).logs = st.logs ++ [postLogEntry u (net ⟨u, p, c.timeout⟩)] := by
  cases hnet : net ⟨u, p, c.timeout⟩ <;> simp [post_json, postLogEntry, hnet]

theorem runSteps_requests (tid : String) (tot : ℕ) (burl : String) (c : Client)
    (net : Net) (steps : List Step) : ∀ (i : ℕ) (st : ExecState),
    (runSteps tid tot burl c net i steps st).requests
      = st.requests ++ stepTrace tid tot burl c.timeout i st.clock steps := by
  induction steps with
  | nil =>
      intro i st
      simp [runSteps, stepTrace]
  | cons step rest ih =>
      intro i st
      simp only [runSteps, stepTrace, logMsg]
      rw [ih]
      rw [post_json_requests, post_json_clock]
      simp

theorem runSteps_clock (tid : String) (tot : ℕ) (burl : String) (c : Client)
    (net : Net) (steps : List Step) : ∀ (i : ℕ) (st : ExecState),
    (runSteps tid tot burl c net i steps st).clock = st.clock + durSum steps := by
  induction steps with
  | nil =>
      intro i st
      simp [runSteps, durSum]
  | cons step rest ih =>
      intro i st
      simp only [runSteps, logMsg]
      rw [ih]
      rw [post_json_clock]
      simp [durSum]
      ring

theorem execute_task_requests (t : Task) (u : String) (c : Client) (net : Net)
    (st : ExecState) :
    (execute_task t u c net st).1.requests
      = st.requests
        ++ stepTrace (t.id.getD "unknown") (t.steps.getD []).length u c.timeout 1
            st.clock (t.steps.getD [])
        ++ [resultReq t u c.timeout st.clock] := by
  unfold execute_task resultReq
  simp only [logMsg]
  rw [post_json_requests]
  rw [runSteps_requests]
  rw [runSteps_clock]
  simp

theorem execute_task_clock (t : Task) (u : String) (c : Client) (net : Net)
    (st : ExecState) :
    (execute_task t u c net st).1.clock = st.clock + durSum (t.steps.getD []) := by
  unfold execute_task
  simp only [logMsg]
  rw [post_json_clock, runSteps_clock]

theorem stepTrace_filterMap_progress (tid : String) (tot : ℕ) (burl : String)
    (tmo : Timeout) (steps : List Step) : ∀ (i : ℕ) (clk : ℚ),
    (stepTrace tid tot burl tmo i clk steps).filterMap progressOf
      = (List.range steps.length).map (fun k => progressValue (i + k) tot) := by
  induction steps with
  | nil =>
      intro i clk
      simp [stepTrace]
  | cons step rest ih =>
      intro i clk
      simp only [stepTrace, List.filterMap_cons, progressOf]
      rw [ih]
      rw [List.length_cons, List.range_succ_eq_map]
      simp only [List.map_cons, List.map_map]
      rw [Nat.add_zero]
      refine congrArg (progressValue i tot :: ·) ?_
      refine List.map_congr_left fun k _ => ?_
      simp only [Function.comp]
      rw [(by omega : i + 1 + k = i + Nat.succ k)]

theorem stepTrace_filterMap_result (tid : String) (tot : ℕ) (burl : String)
    (tmo : Timeout) (steps : List Step) : ∀ (i : ℕ) (clk : ℚ),
    (stepTrace tid tot burl tmo i clk steps).filterMap resultOf = [] := by
  induction steps with
  | nil =>
      intro i clk
      simp [stepTrace]
  | cons step rest ih =>
      intro i clk
      simp only [stepTrace, List.filterMap_cons, resultOf]
      exact ih _ _

theorem stepTrace_map_url (tid : String) (tot : ℕ) (burl : String)
    (tmo : Timeout) (steps : List Step) : ∀ (i : ℕ) (clk : ℚ),
    (stepTrace tid tot burl tmo i clk steps).map Request.url
      = List.replicate steps.length (burl ++ STATUS_ENDPOINT) := by
  induction steps with
  | nil =>
      intro i clk
      simp [stepTrace]
  | cons step rest ih =>
      intro i clk
      simp only [stepTrace, List.map_cons, List.length_cons, List.replicate_succ]
      rw [ih]

theorem sentProgresses_execute (t : Task) (u : String) (c : Client) (net : Net) :
    sentProgresses (execute_task t u c net initState).1
      = (List.range (t.steps.getD []).length).map
          (fun k => progressValue (1 + k) (t.steps.getD []).length) := by
  unfold sentProgresses
  rw [execute_task_requests]
  rw [List.filterMap_append, List.filterMap_append]
  rw [stepTrace_filterMap_progress]
  simp [initState, resultReq, progressOf]

theorem sentResults_execute (t : Task) (u : String) (c : Client) (net : Net) :
    sentResults (execute_task t u c net initState).1
      = [⟨t.id.getD "unknown",
          ((t.result.getD ⟨none, none⟩).status).getD "success",
          ((t.result.getD ⟨none, none⟩).output).getD (.obj []),
          0, durSum (t.steps.getD []), durSum (t.steps.getD [])⟩] := by
  unfold sentResults
  rw [execute_task_requests]
  rw [List.filterMap_append, List.filterMap_append]
  rw [stepTrace_filterMap_result]
  simp [initState, resultReq, resultOf]

theorem head?_dropWhile_not {α : Type} (p : α → Bool) (l : List α) :
    ∀ a, (l.dropWhile p).head? = some a → p a = false := by
  induction l with
  | nil =>
      intro a h
      simp [List.dropWhile] at h
  | cons x xs ih =>
      intro a h
      rw [List.dropWhile_cons] at h
      by_cases hx : p x
      · rw [if_pos hx] at h
        exact ih a h
      · rw [if_neg hx] at h
        simp only [List.head?_cons, Option.some.injEq] at h
        subst h
        exact Bool.not_eq_true _ ▸ (by simpa using hx)

theorem rstripSlash_no_trailing (s : String) :
    hasTrailingSlash (rstripSlash s) = false := by
  unfold hasTrailingSlash rstripSlash
  rw [decide_eq_false_iff_not]
  intro hcontra
  have hdata : (String.mk ((s.data.reverse.dropWhile (fun c => c = '/')).reverse)).data
      = (s.data.reverse.dropWhile (fun c => c = '/')).reverse := rfl
  rw [hdata, List.getLast?_reverse] at hcontra
  have := head?_dropWhile_not (fun c => decide (c = '/')) s.data.reverse '/' hcontra
  simp at this

theorem durSum_replicate (n : ℕ) : durSum (List.replicate n ⟨none, none⟩) = (n : ℚ) := by
  unfold durSum
  rw [List.map_replicate, List.sum_replicate]
  simp [Option.getD]

theorem stepTrace_replicate (tid : String) (tot : ℕ) (burl : String) (tmo : Timeout)
    (m : ℕ) : ∀ (i : ℕ) (clk : ℚ),
    stepTrace tid tot burl tmo i clk (List.replicate m ⟨none, none⟩)
      = (List.range m).map (fun k =>
          ⟨burl ++ STATUS_ENDPOINT,
           .progress ⟨tid, i + k, tot, "Step " ++ toString (i + k),
             progressValue (i + k) tot, clk + ((k : ℚ) + 1)⟩, tmo⟩) := by
  induction m with
  | zero =>
      intro i clk
      simp [stepTrace]
  | succ m ih =>
      intro i clk
      rw [List.replicate_succ]
      simp only [stepTrace, Option.getD_none]
      rw [ih]
      rw [List.range_succ_eq_map]
      simp only [List.map_cons, List.map_map]
      rw [Nat.add_zero]
      push_cast
      rw [(by ring : clk + (0 + 1 : ℚ) = clk + 1)]
      refine congrArg (_ :: ·) ?_
      refine List.map_congr_left fun k _ => ?_
      simp only [Function.comp]
      rw [(by omega : i + 1 + k = i + Nat.succ k)]
      push_cast
      rw [(by ring : clk + 1 + ((k : ℚ) + 1) = clk + ((k : ℚ) + 1 + 1))]

/-! ## The claims -/

/-- C1: for every task whose step sequence is non-empty, the progress
percentages `execute_task` sends — one per step, in step order — form a
monotonically non-decreasing sequence, and the one sent for the last step is
exactly 100. -/
theorem C1_progress_monotone_and_final (t : Task) (u : String) (c : Client)
    (net : Net) (h : t.steps.getD [] ≠ []) :
    List.Sorted (· ≤ ·) (sentProgresses (execute_task t u c net initState).1) ∧
    (sentProgresses (execute_task t u c net initState).1).getLast? = some 100 := by
  have hn0 : (t.steps.getD []).length ≠ 0 := by
    simpa [List.length_eq_zero] using h
  rw [sentProgresses_execute]
  constructor
  · refine List.pairwise_map.mpr ?_
    refine List.Pairwise.imp ?_ (List.sorted_lt_range _)
    intro a b hab
    exact progress_mono (by omega) (by omega) hn0
  · obtain ⟨m, hm⟩ : ∃ m, (t.steps.getD []).length = m + 1 :=
      ⟨(t.steps.getD []).length - 1, by omega⟩
    rw [hm, List.range_succ, List.map_append, List.map_cons, List.map_nil,
      List.getLast?_concat]
    rw [(by omega : 1 + m = m + 1), progress_last (by omega)]

/-- Witness for C1: the one-step task (all keys defaulted) sends the sorted
progress sequence `[100]`. -/
theorem C1_witness :
    List.Sorted (· ≤ ·) (sentProgresses (execute_task ⟨none, some [⟨none, none⟩], none⟩
        "http://backend" mainClient (fun _ => .ok "") initState).1) ∧
    (sentProgresses (execute_task ⟨none, some [⟨none, none⟩], none⟩
        "http://backend" mainClient (fun _ => .ok "") initState).1).getLast? = some 100 :=
  C1_progress_monotone_and_final ⟨none, some [⟨none, none⟩], none⟩
    "http://backend" mainClient (fun _ => .ok "") (by simp)

/-- C2 counterexample: on a 100-step task the status payload of step 29
carries progress 28 = `int((29/100) * 100)` in binary64 arithmetic, while
`floor(29/100 * 100) = 29`, so the percentage is not `floor(index/total*100)`. -/
theorem C2_counterexample :
    (sentProgresses (execute_task ⟨some "big", some (List.replicate 100 ⟨none, none⟩), none⟩
        "http://backend" mainClient (fun _ => .ok "") initState).1)[28]?
      = some (progressValue 29 100) ∧
    progressValue 29 100 = 28 ∧
    specProgress 29 100 = 29 ∧
    (sentProgresses (execute_task ⟨some "big", some (List.replicate 100 ⟨none, none⟩), none⟩
        "http://backend" mainClient (fun _ => .ok "") initState).1)[28]?
      ≠ some (specProgress 29 100) := by
  have h := sentProgresses_execute
    ⟨some "big", some (List.replicate 100 ⟨none, none⟩), none⟩
    "http://backend" mainClient (fun _ => .ok "")
  have hidx : (sentProgresses (execute_task
      ⟨some "big", some (List.replicate 100 ⟨none, none⟩), none⟩
      "http://backend" mainClient (fun _ => .ok "") initState).1)[28]?
      = some (progressValue 29 100) := by
    rw [h]
    simp
  refine ⟨hidx, progress_twentynine_of_hundred, specProgress_twentynine_of_hundred, ?_⟩
  rw [hidx, progress_twentynine_of_hundred, specProgress_twentynine_of_hundred]
  simp

/-- C2 amended: the percentage is the binary64 evaluation of
`int((index/total) * 100)` (100 when total is zero); it always lies within
one unit of `floor(index/total * 100)`, but can differ from it. -/
theorem C2_progress_formula (i n : ℕ) (hi : 1 ≤ i) (hin : i ≤ n) :
    progressValue i 0 = 100 ∧
    specProgress i n - 1 ≤ progressValue i n ∧
    progressValue i n ≤ specProgress i n + 1 := by
  refine ⟨rfl, ?_, ?_⟩
  · exact (progress_near_spec hi hin).1
  · exact (progress_near_spec hi hin).2

/-- Witness for C2 amended, at index 2 of total 3. -/
theorem C2_progress_formula_witness :
    progressValue 2 0 = 100 ∧
    specProgress 2 3 - 1 ≤ progressValue 2 3 ∧
    progressValue 2 3 ≤ specProgress 2 3 + 1 :=
  C2_progress_formula 2 3 (by norm_num) (by norm_num)

/-- C3: a task with an empty step sequence sends no status payload and
exactly one result payload, whose elapsed duration is exactly 0 on the
simulated clock. -/
theorem C3_zero_steps (t : Task) (u : String) (c : Client) (net : Net)
    (h : t.steps.getD [] = []) :
    sentProgresses (execute_task t u c net initState).1 = [] ∧
    ∃ r, sentResults (execute_task t u c net initState).1 = [r] ∧ r.duration = 0 := by
  constructor
  · rw [sentProgresses_execute, h]
    simp
  · refine ⟨_, sentResults_execute t u c net, ?_⟩
    simp [h, durSum]

/-- Witness for C3: the demo-id task with `steps = []`. -/
theorem C3_witness :
    sentProgresses (execute_task ⟨some "t", some [], none⟩ "http://backend" mainClient
        (fun _ => .ok "") initState).1 = [] ∧
    ∃ r, sentResults (execute_task ⟨some "t", some [], none⟩ "http://backend" mainClient
        (fun _ => .ok "") initState).1 = [r] ∧ r.duration = 0 :=
  C3_zero_steps ⟨some "t", some [], none⟩ "http://backend" mainClient
    (fun _ => .ok "") rfl

/-- C4: HTTP failures never abort the task — proved in the strongest form:
the request trace of `execute_task` (one status post per step followed by
the result post) is identical under every network oracle, so any pattern of
status-post failures still yields every later status post and the result
post; the simulated clock is likewise unaffected. -/
theorem C4_http_failure_nonfatal (t : Task) (u : String) (c : Client)
    (net netB : Net) :
    (execute_task t u c net initState).1.requests
      = (execute_task t u c netB initState).1.requests ∧
    (execute_task t u c net initState).1.clock
      = (execute_task t u c netB initState).1.clock ∧
    (sentProgresses (execute_task t u c net initState).1).length
      = (t.steps.getD []).length ∧
    (execute_task t u c net initState).1.requests.getLast?
      = some (resultReq t u c.timeout 0) := by
  refine ⟨?_, ?_, ?_, ?_⟩
  · rw [execute_task_requests, execute_task_requests]
  · rw [execute_task_clock, execute_task_clock]
  · rw [sentProgresses_execute]
    simp
  · rw [execute_task_requests]
    rw [List.getLast?_concat]
    rfl

/-- C5: `post_json` (with the client `main` constructs) issues exactly one
request — the JSON-serialized payload, at the given URL, under the
10-second-connect/30-second-read timeout — never re-issues it, writes
exactly one log line whose level is debug on success and error on an
`httpx.HTTPError`, and always returns normally (it is total; the two error
constructors are exactly the transport and HTTP-status errors it catches). -/
theorem C5_post_json_contract (u : String) (p : Payload) (net : Net) (st : ExecState) :
    (post_json mainClient u p net st).requests = st.requests ++ [⟨u, p, ⟨10, 30⟩⟩] ∧
    (post_json mainClient u p net st).clock = st.clock ∧
    (post_json mainClient u p net st).logs
      = st.logs ++ [postLogEntry u (net ⟨u, p, ⟨10, 30⟩⟩)] ∧
    (postLogEntry u (net ⟨u, p, ⟨10, 30⟩⟩)).level
      = (match net ⟨u, p, ⟨10, 30⟩⟩ with
          | .ok _ => LogLevel.debug
          | .error _ => LogLevel.error) ∧
    Request.body ⟨u, p, ⟨10, 30⟩⟩ = payloadToJson p ∧
    mainClient.timeout = ⟨10, 30⟩ := by
  refine ⟨post_json_requests mainClient u p net st,
    post_json_clock mainClient u p net st,
    post_json_logs mainClient u p net st, ?_, rfl, rfl⟩
  cases net ⟨u, p, ⟨10, 30⟩⟩ <;> rfl

/-- C6: when the parsed config lacks `"backend_url"`, `load_config` itself
still succeeds (it performs no key validation), and `main` fails with the
`KeyError` raised at the subscript where the key is read, before any request
has been issued. -/
theorem C6_missing_backend_url (cfg : Config) (net : Net)
    (h : List.lookup "backend_url" cfg = none) :
    load_config (.ok cfg) = .ok cfg ∧
    (mainRun (.ok cfg) net).1 = .error (.keyError "backend_url") ∧
    (mainRun (.ok cfg) net).2.requests = [] := by
  refine ⟨rfl, ?_, ?_⟩ <;> simp [mainRun, load_config, dictGet, h, initState]

/-- Witness for C6: the empty config object. -/
theorem C6_witness :
    load_config (.ok ([] : Config)) = .ok ([] : Config) ∧
    (mainRun (.ok ([] : Config)) (fun _ => .ok "")).1
      = .error (.keyError "backend_url") ∧
    (mainRun (.ok ([] : Config)) (fun _ => .ok "")).2.requests = [] :=
  C6_missing_backend_url [] (fun _ => .ok "") rfl

/-- C7: the demo task (step durations 1.0, 2.0, 1.5) sends the progress
values 33, 66, 100 in that order, and its result payload reports a total
elapsed simulated duration of 4.5 seconds, hence at least 4.5. -/
theorem C7_demo_run (u : String) (c : Client) (net : Net) :
    sentProgresses (execute_task build_demo_task u c net initState).1 = [33, 66, 100] ∧
    ∃ r, sentResults (execute_task build_demo_task u c net initState).1 = [r]
      ∧ r.duration = 9 / 2 ∧ (4.5 : ℚ) ≤ r.duration := by
  constructor
  · rw [sentProgresses_execute]
    have hsteps : (build_demo_task.steps.getD []).length = 3 := rfl
    rw [hsteps]
    have h3 : progressValue 3 3 = 100 := progress_last (by norm_num)
    simp [List.range_succ, progress_one_of_three, progress_two_of_three, h3]
  · refine ⟨_, sentResults_execute build_demo_task u c net, ?_, ?_⟩ <;>
      simp [build_demo_task, durSum] <;> norm_num

/-- C8: `execute_task` never writes to the task object — the task as it
stands when the call returns is the task that was passed in. -/
theorem C8_task_readonly (t : Task) (u : String) (c : Client) (net : Net)
    (st : ExecState) : (execute_task t u c net st).2 = t :=
  rfl

/-- C9: a task of any length all of whose optional keys are absent runs
without error and with every default applied: task id `"unknown"`, step
descriptions `"Step {index}"`, step durations 1.0 (the clock advances by 1
per step), and a result with status `"success"` and empty output object. -/
theorem C9_defaults (u : String) (c : Client) (net : Net) (n : ℕ) :
    (execute_task ⟨none, some (List.replicate n ⟨none, none⟩), none⟩ u c net
        initState).1.requests
      = (List.range n).map (fun k =>
          ⟨u ++ STATUS_ENDPOINT,
           .progress ⟨"unknown", 1 + k, n, "Step " ++ toString (1 + k),
             progressValue (1 + k) n, ((k : ℚ) + 1)⟩, c.timeout⟩)
        ++ [⟨u ++ RESULT_ENDPOINT,
             .result ⟨"unknown", "success", .obj [], 0, (n : ℚ), (n : ℚ)⟩, c.timeout⟩] := by
  rw [execute_task_requests]
  simp only [Option.getD_some, Option.getD_none, List.length_replicate]
  rw [stepTrace_replicate]
  simp [initState, resultReq, durSum_replicate]

/-- C10: `main` strips every trailing slash from the configured backend URL,
so each request URL is the stripped base followed by exactly
`/executor/status` or `/executor/result`, and the stripped base never ends
in a slash (no doubled slash at the join). -/
theorem C10_backend_url_strip (raw : String) (net : Net) :
    ((mainRun (.ok [("backend_url", .str raw)]) net).2.requests).map Request.url
      = List.replicate 3 (rstripSlash raw ++ STATUS_ENDPOINT)
        ++ [rstripSlash raw ++ RESULT_ENDPOINT] ∧
    hasTrailingSlash (rstripSlash raw) = false := by
  refine ⟨?_, rstripSlash_no_trailing raw⟩
  have hlookup : List.lookup "backend_url" ([("backend_url", Json.str raw)] : Config)
      = some (Json.str raw) := by
    simp [List.lookup]
  simp only [mainRun, load_config, dictGet, hlookup]
  rw [execute_task_requests]
  rw [List.map_append, List.map_append]
  rw [stepTrace_map_url]
  simp [logMsg, initState, resultReq, build_demo_task]

end WorkflowExecutor
